import Mathlib

/-!
# Verification of the auto-batching proxy core (`src/batcher.rs`, `src/error.rs`)

Shallow embedding of the request-batching proxy: the error taxonomy
(`ProxyError`), the response handling of the dispatcher and result fan-out
(`Batcher::send_batch`), the accumulation loop (`Batcher::receive_batch`
and `Batcher::run`), the gateway (`BatchSender::request`), and the
admission-control semaphore as a step relation.

Machine integers (`usize`, `u16`) are modelled as `Nat`; the `Vec<f32>`
embedding payloads are opaque data the proxy never inspects, modelled as
`List Int`.  Logical time is `Nat`; the tokio channel is modelled as a
timestamped arrival list plus a closing time.
-/

set_option autoImplicit false

namespace Proxy

/-- Opaque embedding payload (`Vec<f32>` in the source; the proxy never
inspects the numbers, so the carrier is irrelevant). -/
abbrev Emb := List Int

/-- `ProxyError` from `src/error.rs`.  `Receiver` carries a
`oneshot::error::RecvError`, a payload-free struct. -/
inductive ProxyError where
  | BatcherUnavailable
  | ServiceShutdown
  | Upstream (code : Nat) (body : String)
  | Request (message : String)
  | CountMismatch (expected got : Nat)
  | Receiver
  deriving DecidableEq

/-- The pending unit of work of one caller (`BatchItem` in `src/batcher.rs`).
The `oneshot::Sender` outcome slot is identified by `id`: a delivery is
recorded as a pair of the item and the outcome sent to its slot. -/
structure Item where
  id : Nat
  input : String
  deriving DecidableEq

/-- Result of `r.json::<Vec<Vec<f32>>>()` on a 2xx response body. -/
inductive JsonParse where
  | ok (embs : List Emb)
  | err (message : String)
  deriving DecidableEq

/-- A downstream HTTP response: status code, the deserialization result of
its body as `Vec<Vec<f32>>`, and its raw text (read on non-2xx). -/
structure HttpResponse where
  status : Nat
  parse : JsonParse
  text : String
  deriving DecidableEq

/-- Outcome of `client.post(..).json(&req).send().await`: a response, or a
transport-level error. -/
inductive HttpOutcome where
  | ok (r : HttpResponse)
  | err (message : String)
  deriving DecidableEq

/-- `reqwest::StatusCode::is_success`: 2xx. -/
def statusIsSuccess (s : Nat) : Bool := 200 ≤ s && s < 300

/-- Lines 150–159 of `src/batcher.rs`: classify the outcome of the downstream
call into `Ok(Vec<Vec<f32>>)` or a `ProxyError`.  A 2xx body that fails
to deserialize becomes `ProxyError::Request` via
`impl From<reqwest::Error> for ProxyError`. -/
def responseToResult (resp : HttpOutcome) : Except ProxyError (List Emb) :=
  match resp with
  | .ok r =>
    if statusIsSuccess r.status then
      match r.parse with
      | .ok embs => .ok embs
      | .err m => .error (.Request m)
    else
      .error (.Upstream r.status r.text)
  | .err m => .error (.Request m)

/-- Lines 161–188 of `src/batcher.rs`: fan the classified result out to the
batch.  Each list element `(item, out)` records that `out` was sent on
`item.resp`.  On `Ok(embs)` with matching length the code zips batch and
results; on a length mismatch every item gets `CountMismatch`; on `Err(e)`
every item gets a clone of the same error. -/
def deliveries (batch : List Item) (result : Except ProxyError (List Emb)) :
    List (Item × Except ProxyError Emb) :=
  match result with
  | .ok embs =>
    if embs.length = batch.length then
      (batch.zip embs).map (fun p => (p.1, Except.ok p.2))
    else
      batch.map (fun it => (it, Except.error (.CountMismatch batch.length embs.length)))
  | .error e => batch.map (fun it => (it, Except.error e))

/-- Lines 128–189 of `src/batcher.rs`, the spawned dispatch task:
if `inflight.acquire_owned()` fails (semaphore closed) every item gets
`ServiceShutdown` and no downstream call is made; otherwise the call is
issued and its outcome fanned out. -/
def send_batch (permitAcquired : Bool) (batch : List Item) (resp : HttpOutcome) :
    List (Item × Except ProxyError Emb) :=
  if permitAcquired then deliveries batch (responseToResult resp)
  else batch.map (fun it => (it, Except.error .ServiceShutdown))

/-! ## Accumulator model (`Batcher::receive_batch`, lines 77–119)

The tokio mpsc channel is modelled by a timestamped list of pending
arrivals (`(sendTime, item)`, FIFO order) together with the time at which
every sender is dropped (`closeTime`).  An item is receivable once the
simulated clock has reached its send time.  The blocking
`recv`, non-blocking `try_recv` and `timeout(remaining, recv)` are given
their tokio semantics over this state:

* `Sender::send` never fails while the channel is open;
* `try_recv` returns `Disconnected` only once the buffer is empty and the
  channel is closed, `Empty` when nothing is receivable yet;
* `timeout(d, recv())` yields the next item if it is receivable before the
  deadline, observes closure if that happens before the deadline, and
  otherwise elapses exactly at the deadline.
-/

/-- State of the submission channel as seen by the accumulator:
the current simulated time, the timestamped arrivals not yet dequeued
(FIFO), and the time the channel closes (all senders dropped). -/
structure SimState where
  now : Nat
  pending : List (Nat × Item)
  closeTime : Nat
  deriving DecidableEq

/-- `self.rx.recv().await` (line 78): block until the next item is
receivable; `none` when the channel is empty and closed. -/
def recvFirst (s : SimState) : Option (Item × SimState) :=
  match s.pending with
  | (ta, it) :: rest => some (it, { s with now := max s.now ta, pending := rest })
  | [] => none

/-- Result of `rx.try_recv()` (lines 87–91). -/
inductive TryRecvR where
  | item (i : Item)
  | empty
  | disconnected
  deriving DecidableEq

/-- `rx.try_recv()` at time `now` over `pending`/`closeTime`. -/
def tryRecv (now closeTime : Nat) (pending : List (Nat × Item)) :
    TryRecvR × List (Nat × Item) :=
  match pending with
  | (ta, it) :: rest =>
    if ta ≤ now then (.item it, rest) else (.empty, (ta, it) :: rest)
  | [] => if closeTime ≤ now then (.disconnected, []) else (.empty, [])

/-- The fast-drain loop (lines 86–92): `while batch.len() < max_batch_size`
pop with `try_recv`; stop on `Empty`; the returned `Bool` is `true` when
`Disconnected` was observed (line 90, `return Some(batch)`).
Time does not advance during the drain. -/
def fastDrain (maxB now closeTime : Nat) (batch : List Item) :
    List (Nat × Item) → List Item × List (Nat × Item) × Bool
  | [] =>
    if batch.length < maxB then
      if closeTime ≤ now then (batch, [], true) else (batch, [], false)
    else (batch, [], false)
  | (ta, it) :: rest =>
    if batch.length < maxB then
      if ta ≤ now then fastDrain maxB now closeTime (batch ++ [it]) rest
      else (batch, (ta, it) :: rest, false)
    else (batch, (ta, it) :: rest, false)

/-- Result of `tokio::time::timeout(remaining, self.rx.recv()).await`
(line 107). -/
inductive TimedR where
  | item (i : Item)
  | closed
  | timedOut
  deriving DecidableEq

/-- `timeout(deadline - now, recv())` with absolute deadline `dl`:
the head arrival wins if receivable by `dl`; closure wins if it happens by
`dl` with nothing pending; otherwise the timer elapses at `dl`. -/
def timedRecv (dl : Nat) (s : SimState) : TimedR × SimState :=
  match s.pending with
  | (ta, it) :: rest =>
    if ta ≤ dl then (.item it, { s with now := max s.now ta, pending := rest })
    else (.timedOut, { s with now := dl })
  | [] =>
    if s.closeTime ≤ dl then (.closed, { s with now := max s.now s.closeTime })
    else (.timedOut, { s with now := dl })

/-- Why `receive_batch` returned its batch: the size cap was hit, the
deadline was hit (proactive check or elapsed timer), or channel closure
was observed (`Disconnected` from `try_recv`, or `recv` returning `None`
inside the timed wait). -/
inductive FlushReason where
  | full
  | deadline
  | closed
  deriving DecidableEq

/-- The `loop` of lines 84–118, fuel-indexed (`none` = out of fuel; fuel
`pending.length + 1` always suffices, see `accLoop_isSome`).  One
iteration: fast-drain, return on `Disconnected`; return when
`batch.len() == max_batch_size` (line 94); return when `now >= deadline`
(line 101); otherwise one bounded timed wait (lines 107–117). -/
def accLoop (maxB dl : Nat) :
    Nat → List Item → SimState → Option (List Item × SimState × FlushReason)
  | 0, _, _ => none
  | fuel + 1, batch, s =>
    match fastDrain maxB s.now s.closeTime batch s.pending with
    | (b1, p1, true) => some (b1, { s with pending := p1 }, .closed)
    | (b1, p1, false) =>
      if b1.length = maxB then some (b1, { s with pending := p1 }, .full)
      else if dl ≤ s.now then some (b1, { s with pending := p1 }, .deadline)
      else
        match timedRecv dl { s with pending := p1 } with
        | (.item it, s2) =>
          if (b1 ++ [it]).length = maxB then some (b1 ++ [it], s2, .full)
          else accLoop maxB dl fuel (b1 ++ [it]) s2
        | (.closed, s2) => some (b1, s2, .closed)
        | (.timedOut, s2) => some (b1, s2, .deadline)

/-- `Batcher::receive_batch` (lines 77–119): block for the first item
(`none` when the channel is closed), anchor the deadline at
`now + max_wait_time` (line 82), then run the accumulation loop. -/
def receive_batch (maxB maxWait : Nat) (s : SimState) :
    Option (List Item × SimState × FlushReason) :=
  match recvFirst s with
  | none => none
  | some (it, s1) => accLoop maxB (s1.now + maxWait) (s1.pending.length + 1) [it] s1

/-- The accumulator loop of `Batcher::run` (lines 66–74), fuel-indexed:
`while let Some(batch) = receive_batch() { send_batch(batch) }`.  Returns
the dispatched batches with their flush reasons, in dispatch order
(`none` = out of fuel; `pending.length + 1` always suffices, see
`run_isSome`). -/
def runLoop (maxB maxWait : Nat) :
    Nat → SimState → Option (List (List Item × FlushReason))
  | 0, _ => none
  | fuel + 1, s =>
    match receive_batch maxB maxWait s with
    | none => some []
    | some (batch, s', reason) =>
      (runLoop maxB maxWait fuel s').map (fun l => (batch, reason) :: l)

/-- `Batcher::run` on a channel history: all batches dispatched until the
loop observes the closed channel and exits. -/
def run (maxB maxWait : Nat) (s : SimState) : Option (List (List Item × FlushReason)) :=
  runLoop maxB maxWait (s.pending.length + 1) s

/-- `true` when the head of the queue is receivable right now
(an item is "immediately available"). -/
def itemAvailable (now : Nat) (pending : List (Nat × Item)) : Bool :=
  match pending with
  | (ta, _) :: _ => ta ≤ now
  | [] => false

/-! ## Gateway model (`BatchSender::request`, lines 25–31)

`self.tx.send(item).await` on a bounded tokio mpsc channel waits for
capacity when the queue is full (backpressure) and returns `Err` exactly
when the channel is closed (the receiver was dropped); the `map_err` turns
that into `BatcherUnavailable`.  `rx_resp.await` returns the value written
to the oneshot slot, or `RecvError` (→ `ProxyError::Receiver` via
`#[from]`) when the sender side was dropped without a write. -/

/-- The submission queue as the gateway sees it: capacity, current
occupancy, and whether the receiver has been dropped. -/
structure QueueState where
  capacity : Nat
  queued : Nat
  closed : Bool
  deriving DecidableEq

/-- The queue is at (or beyond) capacity. -/
def queueIsFull (q : QueueState) : Bool := q.capacity ≤ q.queued

/-- `tokio::sync::mpsc::Sender::send(..).await` succeeds (possibly after
waiting for capacity) iff the channel is open. -/
def mpscSendOk (q : QueueState) : Bool := !q.closed

/-- `BatchSender::request` (lines 25–31): enqueue, mapping a send error to
`BatcherUnavailable`, then await the oneshot outcome slot.  `slotWrite` is
the value eventually written to the slot (`none` when the sender side of the slot is
dropped without a write, which surfaces as `ProxyError::Receiver`). -/
def request (q : QueueState) (slotWrite : Option (Except ProxyError Emb)) :
    Except ProxyError Emb :=
  if mpscSendOk q then
    match slotWrite with
    | some out => out
    | none => Except.error .Receiver
  else
    Except.error .BatcherUnavailable

/-! ## Admission-control semaphore model (lines 61 and 128–189)

`Batcher::new` builds `inflight = Semaphore::new(batch_concurrency)`; each
spawned `send_batch` task acquires one owned permit before the downstream
call and the permit is dropped (released) when the task finishes on any
path.  We model the collection of dispatch tasks plus the semaphore as a
step relation and prove the in-flight bound as a reachability invariant. -/

/-- How the downstream call of a dispatch task resolved, as in the `match
result` arms of lines 161–188. -/
inductive OutcomeKind where
  | success
  | mismatch
  | failure
  deriving DecidableEq

/-- Phase of one spawned `send_batch` task:
`started` = spawned, before `acquire_owned`; `inCall` = permit held, HTTP
call in flight; `delivering k` = call resolved as `k`, fanning out
outcomes, permit still held; `finished` = task done, permit dropped;
`shutdown` = `acquire_owned` failed (semaphore closed), items failed with
`ServiceShutdown`, no permit ever held. -/
inductive TaskPhase where
  | started
  | inCall
  | delivering (k : OutcomeKind)
  | finished
  | shutdown
  deriving DecidableEq

/-- Does this phase hold a semaphore permit? -/
def holdsPermit : TaskPhase → Bool
  | .inCall => true
  | .delivering _ => true
  | _ => false

/-- Is this phase a downstream call in flight? -/
def isInCall : TaskPhase → Bool
  | .inCall => true
  | _ => false

/-- Global dispatch state: phases of all spawned tasks, and the number of
permits currently available in `inflight`. -/
structure DispatchSystem where
  tasks : List TaskPhase
  available : Nat
  deriving DecidableEq

/-- Initial state: no tasks spawned, `Semaphore::new(cap)` full. -/
def initSystem (cap : Nat) : DispatchSystem := ⟨[], cap⟩

/-- Number of tasks currently holding a permit. -/
def permitHolders (s : DispatchSystem) : Nat := s.tasks.countP holdsPermit

/-- Number of downstream calls currently in flight. -/
def inflightCalls (s : DispatchSystem) : Nat := s.tasks.countP isInCall

/-- One interleaved step of the dispatch system. `spawn` is
`tokio::spawn` in `send_batch`; `acquire` is a successful
`inflight.acquire_owned().await` (needs an available permit, consumes it);
`acquireFail` is the `Err(_)` arm (semaphore closed, lines 131–138);
`complete` is the downstream call resolving (any of the three arms);
`finish` is the task ending, dropping `_permit` and releasing it —
unconditionally, whatever the outcome kind. -/
inductive DStep : DispatchSystem → DispatchSystem → Prop where
  | spawn (s : DispatchSystem) :
      DStep s ⟨s.tasks ++ [.started], s.available⟩
  | acquire (s : DispatchSystem) (i : Nat) (hi : i < s.tasks.length)
      (hp : s.tasks.get ⟨i, hi⟩ = .started) (hn : 0 < s.available) :
      DStep s ⟨s.tasks.set i .inCall, s.available - 1⟩
  | acquireFail (s : DispatchSystem) (i : Nat) (hi : i < s.tasks.length)
      (hp : s.tasks.get ⟨i, hi⟩ = .started) :
      DStep s ⟨s.tasks.set i .shutdown, s.available⟩
  | complete (s : DispatchSystem) (i : Nat) (k : OutcomeKind)
      (hi : i < s.tasks.length) (hp : s.tasks.get ⟨i, hi⟩ = .inCall) :
      DStep s ⟨s.tasks.set i (.delivering k), s.available⟩
  | finish (s : DispatchSystem) (i : Nat) (k : OutcomeKind)
      (hi : i < s.tasks.length) (hp : s.tasks.get ⟨i, hi⟩ = .delivering k) :
      DStep s ⟨s.tasks.set i .finished, s.available + 1⟩

/-- States reachable from a fresh `Batcher` with
`Semaphore::new(cap)`. -/
def Reachable (cap : Nat) (s : DispatchSystem) : Prop :=
  Relation.ReflTransGen DStep (initSystem cap) s

/-- Whether a delivered outcome is a success. -/
def isOkOutcome (o : Except ProxyError Emb) : Bool :=
  match o with
  | .ok _ => true
  | .error _ => false

/-- Whether a delivered outcome is a `CountMismatch` failure (of any
parameters). -/
def isCountMismatchOutcome (o : Except ProxyError Emb) : Bool :=
  match o with
  | .error (.CountMismatch _ _) => true
  | _ => false

/-! ## Theorems: dispatcher fan-out (C1, C3, C4, C9) -/

/-- **C1**: for a batch of `N` items and a successful downstream response of
exactly `N` result vectors, the dispatcher makes `N` deliveries and
`result[i]` is delivered, as a success, to the outcome slot of `item[i]`,
for every position `i` — order preserved. -/
theorem c1_positional_correlation (batch : List Item) (embs : List Emb)
    (h : embs.length = batch.length) :
    (deliveries batch (Except.ok embs)).length = batch.length ∧
    ∀ (i : Nat) (h1 : i < batch.length)
      (h2 : i < (deliveries batch (Except.ok embs)).length) (h3 : i < embs.length),
      (deliveries batch (Except.ok embs)).get ⟨i, h2⟩ =
        (batch.get ⟨i, h1⟩, Except.ok (embs.get ⟨i, h3⟩)) := by
  have hd : deliveries batch (Except.ok embs) =
      (batch.zip embs).map (fun p => (p.1, Except.ok p.2)) := by
    simp [deliveries, h]
  constructor
  · rw [hd]
    simp [List.length_zip, h]
  · intro i h1 h2 h3
    simp only [List.get_eq_getElem, hd, List.getElem_map, List.getElem_zip]

theorem c1_witness :
    (deliveries [(⟨0, "a"⟩ : Item), ⟨1, "b"⟩] (Except.ok [[5], [6]])).get ⟨1, by decide⟩ =
      ((⟨1, "b"⟩ : Item), Except.ok ([6] : Emb)) :=
  (c1_positional_correlation [⟨0, "a"⟩, ⟨1, "b"⟩] [[5], [6]] (by decide)).2
    1 (by decide) (by decide) (by decide)

/-- **C3**: for a batch of `N` items and a successful downstream response
whose result count differs from `N`, every one of the `N` items receives
the failure `CountMismatch { expected := N, got := actual }`, and no item
receives a success result. -/
theorem c3_count_mismatch (batch : List Item) (embs : List Emb)
    (h : embs.length ≠ batch.length) :
    deliveries batch (Except.ok embs) =
      batch.map
        (fun it => (it, Except.error (ProxyError.CountMismatch batch.length embs.length))) ∧
    ∀ p ∈ deliveries batch (Except.ok embs), isOkOutcome p.2 = false := by
  have hd : deliveries batch (Except.ok embs) =
      batch.map
        (fun it => (it, Except.error (ProxyError.CountMismatch batch.length embs.length))) := by
    simp [deliveries, h]
  refine ⟨hd, ?_⟩
  intro p hp
  rw [hd] at hp
  obtain ⟨it, _, rfl⟩ := List.mem_map.mp hp
  rfl

theorem c3_witness :
    deliveries [(⟨0, "a"⟩ : Item), ⟨1, "b"⟩, ⟨2, "c"⟩] (Except.ok [[1], [2]]) =
      [((⟨0, "a"⟩ : Item), Except.error (ProxyError.CountMismatch 3 2)),
       (⟨1, "b"⟩, Except.error (ProxyError.CountMismatch 3 2)),
       (⟨2, "c"⟩, Except.error (ProxyError.CountMismatch 3 2))] := by
  have h := (c3_count_mismatch [⟨0, "a"⟩, ⟨1, "b"⟩, ⟨2, "c"⟩] [[1], [2]] (by decide)).1
  simpa using h

/-- **C4**: for a batch whose downstream call yields a transport error or a
non-success status, the dispatcher makes exactly `N` failure deliveries,
one per item, and every item receives the same shared failure —
`Request(message)` for a transport error, `Upstream { code, body }` for a
non-success status. -/
theorem c4_failure_fanout (batch : List Item) :
    (∀ m : String,
      send_batch true batch (HttpOutcome.err m) =
        batch.map (fun it => (it, Except.error (ProxyError.Request m))) ∧
      (send_batch true batch (HttpOutcome.err m)).length = batch.length) ∧
    (∀ r : HttpResponse, statusIsSuccess r.status = false →
      send_batch true batch (HttpOutcome.ok r) =
        batch.map (fun it => (it, Except.error (ProxyError.Upstream r.status r.text))) ∧
      (send_batch true batch (HttpOutcome.ok r)).length = batch.length) := by
  constructor
  · intro m
    have hd : send_batch true batch (HttpOutcome.err m) =
        batch.map (fun it => (it, Except.error (ProxyError.Request m))) := by
      simp [send_batch, responseToResult, deliveries]
    exact ⟨hd, by rw [hd]; simp⟩
  · intro r hr
    have hd : send_batch true batch (HttpOutcome.ok r) =
        batch.map (fun it => (it, Except.error (ProxyError.Upstream r.status r.text))) := by
      simp [send_batch, responseToResult, deliveries, hr]
    exact ⟨hd, by rw [hd]; simp⟩

theorem c4_witness :
    send_batch true [(⟨0, "a"⟩ : Item), ⟨1, "b"⟩, ⟨2, "c"⟩] (HttpOutcome.err "connection refused") =
      [((⟨0, "a"⟩ : Item), Except.error (ProxyError.Request "connection refused")),
       (⟨1, "b"⟩, Except.error (ProxyError.Request "connection refused")),
       (⟨2, "c"⟩, Except.error (ProxyError.Request "connection refused"))] ∧
    send_batch true [(⟨0, "a"⟩ : Item)] (HttpOutcome.ok ⟨500, JsonParse.err "x", "oops"⟩) =
      [((⟨0, "a"⟩ : Item), Except.error (ProxyError.Upstream 500 "oops"))] := by
  constructor
  · have h := ((c4_failure_fanout [⟨0, "a"⟩, ⟨1, "b"⟩, ⟨2, "c"⟩]).1 "connection refused").1
    simpa using h
  · have h := ((c4_failure_fanout [⟨0, "a"⟩]).2 ⟨500, JsonParse.err "x", "oops"⟩ (by decide)).1
    simpa using h

/-- **C9, counterexample**: a 2xx response whose body is not an array of
numeric vectors (here: a body that fails to deserialize) does NOT produce
`CountMismatch` — the deserialization error becomes `ProxyError::Request`
via `From<reqwest::Error>`, so the claim that every such item receives
`CountMismatch` is false. -/
theorem c9_counterexample :
    deliveries [(⟨0, "a"⟩ : Item)]
        (responseToResult (HttpOutcome.ok ⟨200, JsonParse.err "error decoding response body", ""⟩)) =
      [((⟨0, "a"⟩ : Item), Except.error (ProxyError.Request "error decoding response body"))] ∧
    isCountMismatchOutcome
        (Except.error (ProxyError.Request "error decoding response body")) = false := by
  exact ⟨rfl, rfl⟩

/-- **C9, amended**: on a 2xx response, a body that parses as a list of
vectors of the wrong count yields `CountMismatch` for every item, while a
body that fails to deserialize as an array of numeric vectors yields the
`Request(message)` failure for every item; in neither case does any item
receive a success result. -/
theorem c9_malformed_body (batch : List Item) (r : HttpResponse)
    (hs : statusIsSuccess r.status = true) :
    (∀ embs, r.parse = JsonParse.ok embs → embs.length ≠ batch.length →
      deliveries batch (responseToResult (HttpOutcome.ok r)) =
        batch.map
          (fun it => (it, Except.error (ProxyError.CountMismatch batch.length embs.length)))) ∧
    (∀ m, r.parse = JsonParse.err m →
      deliveries batch (responseToResult (HttpOutcome.ok r)) =
        batch.map (fun it => (it, Except.error (ProxyError.Request m)))) ∧
    (∀ embs, r.parse = JsonParse.ok embs → embs.length ≠ batch.length →
      ∀ p ∈ deliveries batch (responseToResult (HttpOutcome.ok r)), isOkOutcome p.2 = false) ∧
    (∀ m, r.parse = JsonParse.err m →
      ∀ p ∈ deliveries batch (responseToResult (HttpOutcome.ok r)), isOkOutcome p.2 = false) := by
  have hmm : ∀ (e : ProxyError) (p : Item × Except ProxyError Emb),
      p ∈ batch.map (fun it => (it, Except.error e)) → isOkOutcome p.2 = false := by
    intro e p hp
    obtain ⟨it, _, rfl⟩ := List.mem_map.mp hp
    rfl
  refine ⟨?_, ?_, ?_, ?_⟩
  · intro embs hp hne
    simp [responseToResult, hs, hp, deliveries, hne]
  · intro m hp
    simp [responseToResult, hs, hp, deliveries]
  · intro embs hp hne p hmem
    have hd : deliveries batch (responseToResult (HttpOutcome.ok r)) =
        batch.map
          (fun it => (it, Except.error (ProxyError.CountMismatch batch.length embs.length))) := by
      simp [responseToResult, hs, hp, deliveries, hne]
    rw [hd] at hmem
    exact hmm _ p hmem
  · intro m hp p hmem
    have hd : deliveries batch (responseToResult (HttpOutcome.ok r)) =
        batch.map (fun it => (it, Except.error (ProxyError.Request m))) := by
      simp [responseToResult, hs, hp, deliveries]
    rw [hd] at hmem
    exact hmm _ p hmem

theorem c9_witness :
    deliveries [(⟨0, "a"⟩ : Item), ⟨1, "b"⟩]
        (responseToResult (HttpOutcome.ok ⟨200, JsonParse.err "invalid type", ""⟩)) =
      [((⟨0, "a"⟩ : Item), Except.error (ProxyError.Request "invalid type")),
       (⟨1, "b"⟩, Except.error (ProxyError.Request "invalid type"))] := by
  have h := (c9_malformed_body [⟨0, "a"⟩, ⟨1, "b"⟩]
    ⟨200, JsonParse.err "invalid type", ""⟩ (by decide)).2.1 "invalid type" rfl
  simpa using h

/-! ## Lemmas: fast drain and timed wait -/

/-- Everything the accumulation loop needs about one fast-drain pass:
the drained items are moved, in order, from the front of the queue to the
back of the batch; the queue never grows; the batch never shrinks and
never exceeds the cap (when it started within it); `Disconnected` is
reported only on an empty, closed queue; and when the drain stops short of
the cap with the channel still connected, no item is immediately
available. -/
theorem fastDrain_spec (maxB now ct : Nat) :
    ∀ (pending : List (Nat × Item)) (batch b1 : List Item) (p1 : List (Nat × Item)) (disc : Bool),
      fastDrain maxB now ct batch pending = (b1, p1, disc) →
      batch ++ pending.map Prod.snd = b1 ++ p1.map Prod.snd ∧
      p1.length ≤ pending.length ∧
      batch.length ≤ b1.length ∧
      (batch.length ≤ maxB → b1.length ≤ maxB) ∧
      (disc = true → p1 = []) ∧
      (disc = false → b1.length < maxB → itemAvailable now p1 = false) := by
  intro pending
  induction pending with
  | nil =>
    intro batch b1 p1 disc h
    simp only [fastDrain] at h
    split_ifs at h with h1 h2 <;> cases h <;>
      exact ⟨rfl, Nat.le_refl _, Nat.le_refl _, fun hb => hb, fun _ => rfl, fun _ _ => rfl⟩
  | cons hd tl ih =>
    obtain ⟨ta, it⟩ := hd
    intro batch b1 p1 disc h
    simp only [fastDrain] at h
    split_ifs at h with h1 h2
    · obtain ⟨e1, e2, e3, e4, e5, e6⟩ := ih (batch ++ [it]) b1 p1 disc h
      refine ⟨?_, ?_, ?_, ?_, e5, e6⟩
      · calc batch ++ ((ta, it) :: tl).map Prod.snd
            = (batch ++ [it]) ++ tl.map Prod.snd := by simp
          _ = b1 ++ p1.map Prod.snd := e1
      · exact e2.trans (by simp)
      · exact (by simp : batch.length ≤ (batch ++ [it]).length).trans e3
      · intro _
        apply e4
        simp only [List.length_append, List.length_cons, List.length_nil]
        omega
    · cases h
      refine ⟨rfl, Nat.le_refl _, Nat.le_refl _, fun hb => hb, fun hf => by simp at hf, ?_⟩
      intro _ _
      simp [itemAvailable, h2]
    · cases h
      refine ⟨rfl, Nat.le_refl _, Nat.le_refl _, fun hb => hb, fun hf => by simp at hf, ?_⟩
      intro _ hlt
      exact absurd hlt h1

/-- Everything the accumulation loop needs about one bounded timed wait:
closing time is preserved; an item outcome pops exactly the queue head and
keeps the clock within the deadline; a closed outcome happens only on an
empty queue; a timeout leaves the queue untouched, sets the clock to the
deadline, and certifies that nothing was receivable by the deadline. -/
theorem timedRecv_spec (dl : Nat) (s : SimState) (tr : TimedR) (s2 : SimState)
    (h : timedRecv dl s = (tr, s2)) :
    s2.closeTime = s.closeTime ∧
    (∀ it, tr = TimedR.item it →
      s2.pending.length < s.pending.length ∧
      s.pending.map Prod.snd = it :: s2.pending.map Prod.snd ∧
      (s.now ≤ dl → s2.now ≤ dl)) ∧
    (tr = TimedR.closed → s.pending = [] ∧ s2.pending = [] ∧ (s.now ≤ dl → s2.now ≤ dl)) ∧
    (tr = TimedR.timedOut → s2.now = dl ∧ s2.pending = s.pending ∧
      itemAvailable dl s.pending = false) := by
  unfold timedRecv at h
  split at h
  next ta it0 rest heq =>
    split_ifs at h with hta <;> cases h
    · refine ⟨rfl, ?_, fun hc => by simp at hc, fun hc => by simp at hc⟩
      intro it hit
      injection hit with hit
      subst hit
      refine ⟨by rw [heq]; simp, by rw [heq]; simp, ?_⟩
      intro hnow
      simp only [Nat.max_le]
      exact ⟨hnow, hta⟩
    · refine ⟨rfl, fun it hit => by simp at hit, fun hc => by simp at hc, ?_⟩
      intro _
      refine ⟨rfl, rfl, ?_⟩
      rw [heq]
      simp [itemAvailable, hta]
  next heq =>
    split_ifs at h with hct <;> cases h
    · refine ⟨rfl, fun it hit => by simp at hit, ?_, fun hc => by simp at hc⟩
      intro _
      refine ⟨heq, heq, ?_⟩
      intro hnow
      simp only [Nat.max_le]
      exact ⟨hnow, hct⟩
    · refine ⟨rfl, fun it hit => by simp at hit, fun hc => by simp at hc, ?_⟩
      intro _
      refine ⟨rfl, rfl, ?_⟩
      rw [heq]
      rfl

/-- Main invariant of the accumulation loop (all claims about
`receive_batch` reduce to it): the batch extends its argument by exactly
the items dequeued, in queue order; the closing time is unchanged; the
queue only shrinks; the batch only grows and respects the size cap (when
it started within it); a partial batch is only returned with no item
immediately available; the clock never passes the deadline and a
deadline-reason return happens exactly at the deadline; and a
closed-reason return leaves an empty queue. -/
theorem accLoop_spec (maxB dl : Nat) :
    ∀ (fuel : Nat) (batch : List Item) (s : SimState) (b : List Item) (s' : SimState)
      (r : FlushReason),
      accLoop maxB dl fuel batch s = some (b, s', r) →
      batch ++ s.pending.map Prod.snd = b ++ s'.pending.map Prod.snd ∧
      s'.closeTime = s.closeTime ∧
      s'.pending.length ≤ s.pending.length ∧
      batch.length ≤ b.length ∧
      (batch.length ≤ maxB → b.length ≤ maxB) ∧
      (b.length < maxB → itemAvailable s'.now s'.pending = false) ∧
      (s.now ≤ dl → s'.now ≤ dl ∧ (r = FlushReason.deadline → s'.now = dl)) ∧
      (r = FlushReason.closed → s'.pending = []) := by
  intro fuel
  induction fuel with
  | zero =>
    intro batch s b s' r h
    simp only [accLoop] at h
    exact Option.noConfusion h
  | succ fuel ih =>
    intro batch s b s' r h
    simp only [accLoop] at h
    split at h
    case h_1 b1 p1 heq =>
      -- Disconnected observed during the fast drain; return reason closed.
      obtain ⟨e1, e2, e3, e4, e5, _⟩ := fastDrain_spec maxB s.now s.closeTime s.pending batch b1 p1 true heq
      cases h
      have hp1 : p1 = [] := e5 rfl
      refine ⟨e1, rfl, e2, e3, e4, ?_, ?_, fun _ => hp1⟩
      · intro _
        rw [hp1]
        rfl
      · intro hnow
        exact ⟨hnow, fun hd => by simp at hd⟩
    case h_2 b1 p1 heq =>
      obtain ⟨e1, e2, e3, e4, _, e6⟩ := fastDrain_spec maxB s.now s.closeTime s.pending batch b1 p1 false heq
      split_ifs at h with h1 h2
      · -- Batch reached max_batch_size right after the drain.
        cases h
        refine ⟨e1, rfl, e2, e3, e4, ?_, ?_, fun hc => by simp at hc⟩
        · intro hlt
          omega
        · intro hnow
          exact ⟨hnow, fun hd => by simp at hd⟩
      · -- Proactive deadline check fired: now ≥ deadline.
        cases h
        refine ⟨e1, rfl, e2, e3, e4, ?_, ?_, fun hc => by simp at hc⟩
        · intro hlt
          exact e6 rfl hlt
        · intro hnow
          exact ⟨hnow, fun _ => Nat.le_antisymm hnow h2⟩
      · -- One bounded timed wait.
        split at h
        next it0 s2 htr =>
          obtain ⟨t1, t2, _, _⟩ := timedRecv_spec dl { s with pending := p1 } (TimedR.item it0) s2 htr
          obtain ⟨tlen, tmap, tnow⟩ := t2 it0 rfl
          dsimp only at t1 tlen tmap tnow
          split_ifs at h with hfull
          · -- The new item filled the batch.
            cases h
            refine ⟨?_, t1, ?_, ?_, ?_, ?_, ?_, fun hc => by simp at hc⟩
            · rw [e1, tmap]
              simp
            · calc s'.pending.length ≤ p1.length := Nat.le_of_lt tlen
                _ ≤ s.pending.length := e2
            · calc batch.length ≤ b1.length := e3
                _ ≤ (b1 ++ [it0]).length := by simp
            · intro _
              omega
            · intro hlt
              omega
            · intro hnow
              exact ⟨tnow hnow, fun hd => by simp at hd⟩
          · -- Loop again with the grown batch.
            obtain ⟨i1, i2, i3, i4, i5, i6, i7, i8⟩ := ih (b1 ++ [it0]) s2 b s' r h
            refine ⟨?_, i2.trans t1, ?_, ?_, ?_, i6, ?_, i8⟩
            · rw [e1, tmap, ← i1]
              simp
            · calc s'.pending.length ≤ s2.pending.length := i3
                _ ≤ p1.length := Nat.le_of_lt tlen
                _ ≤ s.pending.length := e2
            · calc batch.length ≤ b1.length := e3
                _ ≤ (b1 ++ [it0]).length := by simp
                _ ≤ b.length := i4
            · intro hble
              apply i5
              have hb1 : b1.length ≤ maxB := e4 hble
              simp only [List.length_append, List.length_cons, List.length_nil]
              omega
            · intro hnow
              exact i7 (tnow hnow)
        next s2 htr =>
          obtain ⟨t1, _, t3, _⟩ := timedRecv_spec dl { s with pending := p1 } TimedR.closed s2 htr
          obtain ⟨tp, tp2, tnow⟩ := t3 rfl
          dsimp only at t1 tp tnow
          cases h
          refine ⟨?_, t1, ?_, e3, e4, ?_, ?_, fun _ => tp2⟩
          · rw [e1, tp, tp2]
          · rw [tp2]
            simp
          · intro _
            rw [tp2]
            rfl
          · intro hnow
            exact ⟨tnow hnow, fun hd => by simp at hd⟩
        next s2 htr =>
          obtain ⟨t1, _, _, t4⟩ := timedRecv_spec dl { s with pending := p1 } TimedR.timedOut s2 htr
          obtain ⟨tnow, tp, tav⟩ := t4 rfl
          dsimp only at t1 tp tav
          cases h
          refine ⟨?_, t1, ?_, e3, e4, ?_, ?_, fun hc => by simp at hc⟩
          · rw [e1, tp]
          · rw [tp]
            exact e2
          · intro _
            rw [tnow, tp]
            exact tav
          · intro _
            exact ⟨Nat.le_of_eq tnow, fun _ => tnow⟩

/-- Fuel `pending.length + 1` always suffices for the accumulation loop:
every iteration that continues pops at least one pending arrival. -/
theorem accLoop_isSome (maxB dl : Nat) :
    ∀ (fuel : Nat) (batch : List Item) (s : SimState),
      s.pending.length < fuel → (accLoop maxB dl fuel batch s).isSome = true := by
  intro fuel
  induction fuel with
  | zero =>
    intro _ s h
    omega
  | succ fuel ih =>
    intro batch s hlt
    simp only [accLoop]
    split
    next b1 p1 heq => rfl
    next b1 p1 heq =>
      obtain ⟨_, e2, _, _, _, _⟩ := fastDrain_spec maxB s.now s.closeTime s.pending batch b1 p1 false heq
      split_ifs with h1 h2
      · rfl
      · rfl
      · split
        next it0 s2 htr =>
          obtain ⟨_, t2, _, _⟩ := timedRecv_spec dl { s with pending := p1 } (TimedR.item it0) s2 htr
          obtain ⟨tlen, _, _⟩ := t2 it0 rfl
          dsimp only at tlen
          split_ifs with hfull
          · rfl
          · apply ih
            omega
        next s2 htr => rfl
        next s2 htr => rfl

/-- `receive_batch` returns `none` exactly when the channel history is
exhausted (empty queue; the close is then the next observable event). -/
theorem receive_batch_none_iff (maxB mw : Nat) (s : SimState) :
    receive_batch maxB mw s = none ↔ s.pending = [] := by
  constructor
  · intro h
    unfold receive_batch at h
    split at h
    next heq =>
      unfold recvFirst at heq
      split at heq
      next => exact Option.noConfusion heq
      next heq2 => exact heq2
    next it s1 heq =>
      have := accLoop_isSome maxB (s1.now + mw) (s1.pending.length + 1) [it] s1 (by omega)
      rw [h] at this
      exact Bool.noConfusion this
  · intro h
    unfold receive_batch recvFirst
    rw [h]

/-- Everything the run-loop claims need about one `receive_batch` cycle,
assembled from `accLoop_spec`: the batch is exactly the dequeued prefix of
the queue, in order; the queue strictly shrinks; the batch is non-empty
and respects the size cap (for a positive cap); a partial batch is
returned only with nothing immediately available; and a closed-reason
return leaves an empty queue. -/
theorem receive_batch_spec (maxB mw : Nat) (s : SimState) (b : List Item) (s' : SimState)
    (r : FlushReason) (h : receive_batch maxB mw s = some (b, s', r)) :
    s.pending.map Prod.snd = b ++ s'.pending.map Prod.snd ∧
    s'.closeTime = s.closeTime ∧
    s'.pending.length < s.pending.length ∧
    1 ≤ b.length ∧
    (1 ≤ maxB → b.length ≤ maxB) ∧
    (b.length < maxB → itemAvailable s'.now s'.pending = false) ∧
    (r = FlushReason.closed → s'.pending = []) := by
  unfold receive_batch at h
  split at h
  next => exact Option.noConfusion h
  next it s1 heq =>
    obtain ⟨a1, a2, a3, a4, a5, a6, _, a8⟩ :=
      accLoop_spec maxB (s1.now + mw) (s1.pending.length + 1) [it] s1 b s' r h
    unfold recvFirst at heq
    split at heq
    next ta it0 rest heq2 =>
      injection heq with heq
      injection heq with hit hs1
      subst hit
      subst hs1
      dsimp only at a1 a2 a3 a6 a8
      refine ⟨?_, a2, ?_, ?_, ?_, a6, a8⟩
      · rw [heq2]
        simpa using a1
      · rw [heq2]
        simp only [List.length_cons]
        omega
      · simpa using a4
      · intro hmax
        apply a5
        simpa using hmax
    next => exact Option.noConfusion heq

/-- A `receive_batch` cycle on an exhausted queue cannot produce a batch:
`runLoop` then stops immediately. -/
theorem runLoop_nil_of_empty (maxB mw : Nat) (fuel : Nat) (s : SimState)
    (l : List (List Item × FlushReason)) (hpend : s.pending = [])
    (h : runLoop maxB mw fuel s = some l) : l = [] := by
  cases fuel with
  | zero => exact Option.noConfusion h
  | succ fuel =>
    simp only [runLoop] at h
    have hnone : receive_batch maxB mw s = none := (receive_batch_none_iff maxB mw s).mpr hpend
    rw [hnone] at h
    injection h with h
    exact h.symm

/-- The run loop dispatches exactly the submitted items, in order, and a
closed-reason batch can only be the last one dispatched. -/
theorem runLoop_spec (maxB mw : Nat) :
    ∀ (fuel : Nat) (s : SimState) (l : List (List Item × FlushReason)),
      runLoop maxB mw fuel s = some l →
      (l.map Prod.fst).flatten = s.pending.map Prod.snd ∧
      (∀ x ∈ l.dropLast, x.2 ≠ FlushReason.closed) := by
  intro fuel
  induction fuel with
  | zero =>
    intro s l h
    exact Option.noConfusion h
  | succ fuel ih =>
    intro s l h
    simp only [runLoop] at h
    split at h
    next hr =>
      injection h with h
      subst h
      have hpend : s.pending = [] := (receive_batch_none_iff maxB mw s).mp hr
      constructor
      · rw [hpend]
        rfl
      · intro x hx
        simp at hx
    next batch s' reason hr =>
      rw [Option.map_eq_some'] at h
      obtain ⟨l', hl', rfl⟩ := h
      obtain ⟨ihj, ihd⟩ := ih s' l' hl'
      obtain ⟨e1, _, _, _, _, _, eclosed⟩ := receive_batch_spec maxB mw s batch s' reason hr
      constructor
      · simp only [List.map_cons, List.flatten_cons]
        rw [ihj, ← e1]
      · cases l' with
        | nil =>
          intro x hx
          simp at hx
        | cons y ys =>
          intro x hx
          rw [List.dropLast_cons_of_ne_nil (by simp)] at hx
          rcases List.mem_cons.mp hx with hx1 | hx2
          · subst hx1
            intro hc
            have hpend : s'.pending = [] := eclosed hc
            have : y :: ys = [] := runLoop_nil_of_empty maxB mw fuel s' (y :: ys) hpend hl'
            exact List.noConfusion this
          · exact ihd x hx2

/-- Fuel `pending.length + 1` always suffices for the run loop: every
dispatched batch strictly shrinks the queue. -/
theorem runLoop_isSome (maxB mw : Nat) :
    ∀ (fuel : Nat) (s : SimState), s.pending.length < fuel →
      (runLoop maxB mw fuel s).isSome = true := by
  intro fuel
  induction fuel with
  | zero =>
    intro s h
    omega
  | succ fuel ih =>
    intro s hlt
    simp only [runLoop]
    split
    next => rfl
    next batch s' reason hr =>
      rw [Option.isSome_map']
      apply ih
      obtain ⟨_, _, hshrink, _⟩ := receive_batch_spec maxB mw s batch s' reason hr
      omega

/-! ## Theorems: accumulator (C2, C6, C7, C10) -/

/-- **C2, counterexample**: with `max_batch_size = 0` (a configuration the
code accepts: `MAX_BATCH_SIZE=0` parses), the first item is pushed before
any size check, so `receive_batch` returns a batch of length `1 > 0`,
violating the claimed bound `length ≤ max_batch_size`. -/
theorem c2_counterexample :
    (receive_batch 0 0 ⟨0, [(0, ⟨0, "a"⟩)], 5⟩).map (fun x => x.1.length) = some 1 ∧
    ¬ (1 ≤ 0) := by
  exact ⟨by decide, by decide⟩

/-- **C2, amended**: assuming `max_batch_size ≥ 1`, every batch returned by
`receive_batch` is non-empty and has length at most `max_batch_size`; and
whenever an item is still immediately available at return, the batch was
returned exactly because its length reached `max_batch_size` (never
larger, never smaller while items remain immediately available). -/
theorem c2_size_bound (maxB mw : Nat) (s : SimState) (b : List Item) (s' : SimState)
    (r : FlushReason) (hmax : 1 ≤ maxB) (h : receive_batch maxB mw s = some (b, s', r)) :
    b ≠ [] ∧ b.length ≤ maxB ∧
    (itemAvailable s'.now s'.pending = true → b.length = maxB) := by
  obtain ⟨_, _, _, hb1, hble, hav, _⟩ := receive_batch_spec maxB mw s b s' r h
  refine ⟨?_, hble hmax, ?_⟩
  · intro hnil
    rw [hnil] at hb1
    exact absurd hb1 (by simp)
  · intro havail
    by_contra hne
    have hlt : b.length < maxB := Nat.lt_of_le_of_ne (hble hmax) hne
    rw [hav hlt] at havail
    exact Bool.noConfusion havail

theorem c2_witness :
    ([⟨0, "a"⟩, ⟨1, "b"⟩, ⟨2, "c"⟩, ⟨3, "d"⟩] : List Item) ≠ [] ∧
    ([⟨0, "a"⟩, ⟨1, "b"⟩, ⟨2, "c"⟩, ⟨3, "d"⟩] : List Item).length ≤ 4 ∧
    (itemAvailable (⟨0, [(0, ⟨4, "e"⟩)], 100⟩ : SimState).now
        (⟨0, [(0, ⟨4, "e"⟩)], 100⟩ : SimState).pending = true →
      ([⟨0, "a"⟩, ⟨1, "b"⟩, ⟨2, "c"⟩, ⟨3, "d"⟩] : List Item).length = 4) :=
  c2_size_bound 4 8
    ⟨0, [(0, ⟨0, "a"⟩), (0, ⟨1, "b"⟩), (0, ⟨2, "c"⟩), (0, ⟨3, "d"⟩), (0, ⟨4, "e"⟩)], 100⟩
    [⟨0, "a"⟩, ⟨1, "b"⟩, ⟨2, "c"⟩, ⟨3, "d"⟩] ⟨0, [(0, ⟨4, "e"⟩)], 100⟩ FlushReason.full
    (by decide) (by decide)

/-- **C6**: the run loop always terminates; the dispatched batches contain
exactly the items accepted into the queue before closure, in order (no
item dropped without being handed to the dispatcher); a batch flushed
because closure was observed is the last one (so at most one final batch
after closure); and when the queue closes with no item ever received for
the cycle, the accumulator stops cleanly without dispatching. -/
theorem c6_shutdown (maxB mw : Nat) (s : SimState) :
    (run maxB mw s).isSome = true ∧
    ∀ l, run maxB mw s = some l →
      (l.map Prod.fst).flatten = s.pending.map Prod.snd ∧
      (∀ x ∈ l.dropLast, x.2 ≠ FlushReason.closed) ∧
      (s.pending = [] → l = []) := by
  refine ⟨runLoop_isSome maxB mw _ s (by omega), ?_⟩
  intro l hl
  unfold run at hl
  obtain ⟨hj, hd⟩ := runLoop_spec maxB mw _ s l hl
  exact ⟨hj, hd, fun hp => runLoop_nil_of_empty maxB mw _ s l hp hl⟩

theorem c6_witness :
    (([([⟨0, "a"⟩, ⟨1, "b"⟩], FlushReason.closed)].map Prod.fst).flatten =
      ([(0, ⟨0, "a"⟩), (0, ⟨1, "b"⟩)] : List (Nat × Item)).map Prod.snd) ∧
    (∀ x ∈ ([([⟨0, "a"⟩, ⟨1, "b"⟩], FlushReason.closed)] :
        List (List Item × FlushReason)).dropLast,
      x.2 ≠ FlushReason.closed) :=
  let h := (c6_shutdown 4 8 ⟨0, [(0, ⟨0, "a"⟩), (0, ⟨1, "b"⟩)], 5⟩).2
    [([⟨0, "a"⟩, ⟨1, "b"⟩], FlushReason.closed)] (by decide)
  ⟨h.1, h.2.1⟩

/-- **C7**: the accumulation deadline is the time the first item of the
cycle is received plus `max_wait_time`, computed once (line 82): whatever
later arrivals occur, the cycle never returns after that deadline, and a
deadline-reason flush returns exactly at it — the partial batch is
returned rather than waiting further. -/
theorem c7_deadline_anchored (maxB mw : Nat) (s : SimState) (b : List Item) (s' : SimState)
    (r : FlushReason) (it : Item) (s1 : SimState)
    (hf : recvFirst s = some (it, s1))
    (h : receive_batch maxB mw s = some (b, s', r)) :
    s'.now ≤ s1.now + mw ∧ (r = FlushReason.deadline → s'.now = s1.now + mw) := by
  unfold receive_batch at h
  split at h
  next heq =>
    rw [hf] at heq
    exact Option.noConfusion heq
  next it2 s12 heq =>
    rw [hf] at heq
    injection heq with heq
    injection heq with hit hs
    subst hit
    subst hs
    obtain ⟨_, _, _, _, _, _, a7, _⟩ :=
      accLoop_spec maxB (s1.now + mw) (s1.pending.length + 1) [it] s1 b s' r h
    exact a7 (Nat.le_add_right _ _)

theorem c7_witness :
    (⟨30, [], 1000⟩ : SimState).now ≤ (⟨0, [], 1000⟩ : SimState).now + 30 ∧
    (FlushReason.deadline = FlushReason.deadline →
      (⟨30, [], 1000⟩ : SimState).now = (⟨0, [], 1000⟩ : SimState).now + 30) :=
  c7_deadline_anchored 8 30 ⟨0, [(0, ⟨0, "a"⟩)], 1000⟩ [⟨0, "a"⟩] ⟨30, [], 1000⟩
    FlushReason.deadline ⟨0, "a"⟩ ⟨0, [], 1000⟩ (by decide) (by decide)

/-- **C10**: the batch assembled in one cycle is exactly the prefix of the
queue dequeued during that cycle, in FIFO order — no item skipped,
reordered, or duplicated; the queue continues with the untouched
suffix. -/
theorem c10_fifo_order (maxB mw : Nat) (s : SimState) (b : List Item) (s' : SimState)
    (r : FlushReason) (h : receive_batch maxB mw s = some (b, s', r)) :
    s.pending.map Prod.snd = b ++ s'.pending.map Prod.snd ∧
    b = (s.pending.map Prod.snd).take b.length ∧
    s'.pending.map Prod.snd = (s.pending.map Prod.snd).drop b.length := by
  obtain ⟨e1, _⟩ := receive_batch_spec maxB mw s b s' r h
  refine ⟨e1, ?_, ?_⟩
  · rw [e1, List.take_left]
  · rw [e1, List.drop_left]

theorem c10_witness :
    (([(0, ⟨0, "a"⟩), (0, ⟨1, "b"⟩), (0, ⟨2, "c"⟩)] : List (Nat × Item)).map Prod.snd =
      [⟨0, "a"⟩, ⟨1, "b"⟩] ++ ([(0, ⟨2, "c"⟩)] : List (Nat × Item)).map Prod.snd) ∧
    ([⟨0, "a"⟩, ⟨1, "b"⟩] : List Item) =
      (([(0, ⟨0, "a"⟩), (0, ⟨1, "b"⟩), (0, ⟨2, "c"⟩)] : List (Nat × Item)).map Prod.snd).take
        ([⟨0, "a"⟩, ⟨1, "b"⟩] : List Item).length ∧
    ([(0, ⟨2, "c"⟩)] : List (Nat × Item)).map Prod.snd =
      (([(0, ⟨0, "a"⟩), (0, ⟨1, "b"⟩), (0, ⟨2, "c"⟩)] : List (Nat × Item)).map Prod.snd).drop
        ([⟨0, "a"⟩, ⟨1, "b"⟩] : List Item).length :=
  c10_fifo_order 2 8 ⟨0, [(0, ⟨0, "a"⟩), (0, ⟨1, "b"⟩), (0, ⟨2, "c"⟩)], 100⟩
    [⟨0, "a"⟩, ⟨1, "b"⟩] ⟨0, [(0, ⟨2, "c"⟩)], 100⟩ FlushReason.full (by decide)

/-! ## Theorems: gateway (C5) -/

/-- **C5, counterexample**: the claim says `submit` fails with
`BatcherUnavailable` exactly when the queue is closed OR full beyond
capacity.  A full-but-open queue refutes the full direction: the bounded
`mpsc::Sender::send(..).await` waits for capacity (backpressure) and only
fails when the channel is closed, so the call succeeds and returns the
outcome written to the slot. -/
theorem c5_counterexample :
    queueIsFull ⟨1, 1, false⟩ = true ∧
    request ⟨1, 1, false⟩ (some (Except.ok [7])) = Except.ok [7] ∧
    request ⟨1, 1, false⟩ (some (Except.ok [7])) ≠
      Except.error ProxyError.BatcherUnavailable := by
  exact ⟨rfl, rfl, fun h => Except.noConfusion h⟩

/-- **C5, amended**: `request` fails with `BatcherUnavailable` exactly when
the submission queue is closed (a full open queue delays the caller
instead of failing); if it enqueues successfully and the outcome slot is
dropped without being written, it fails with the `Receiver` error;
otherwise it returns exactly the outcome written to the slot.  The
hypothesis — the dispatcher never writes `BatcherUnavailable` itself —
holds for every write in `send_batch` (`Ok`, `CountMismatch`, `Upstream`,
`Request`, `ServiceShutdown`). -/
theorem c5_gateway (q : QueueState) (slotWrite : Option (Except ProxyError Emb))
    (hslotOk : ∀ out, slotWrite = some out →
      out ≠ Except.error ProxyError.BatcherUnavailable) :
    (request q slotWrite = Except.error ProxyError.BatcherUnavailable ↔ q.closed = true) ∧
    (q.closed = false → slotWrite = none →
      request q slotWrite = Except.error ProxyError.Receiver) ∧
    (∀ out, q.closed = false → slotWrite = some out → request q slotWrite = out) := by
  refine ⟨⟨?_, ?_⟩, ?_, ?_⟩
  · intro hreq
    cases hc : q.closed with
    | true => rfl
    | false =>
      exfalso
      unfold request mpscSendOk at hreq
      rw [hc] at hreq
      cases hslot : slotWrite with
      | none => rw [hslot] at hreq; simp at hreq
      | some out =>
        rw [hslot] at hreq
        simp at hreq
        exact hslotOk out hslot hreq
  · intro hc
    unfold request mpscSendOk
    rw [hc]
    rfl
  · intro hc hslot
    unfold request mpscSendOk
    rw [hc, hslot]
    rfl
  · intro out hc hslot
    unfold request mpscSendOk
    rw [hc, hslot]
    rfl

theorem c5_witness :
    request ⟨8, 0, false⟩ none = Except.error ProxyError.Receiver ∧
    request ⟨8, 0, true⟩ none = Except.error ProxyError.BatcherUnavailable ∧
    request ⟨8, 0, false⟩ (some (Except.ok [3])) = Except.ok [3] := by
  have hnone : ∀ out : Except ProxyError Emb, (none : Option (Except ProxyError Emb)) = some out →
      out ≠ Except.error ProxyError.BatcherUnavailable := by
    intro out h
    exact absurd h (by simp)
  have hok : ∀ out : Except ProxyError Emb,
      (some (Except.ok [3]) : Option (Except ProxyError Emb)) = some out →
      out ≠ Except.error ProxyError.BatcherUnavailable := by
    intro out h
    rw [Option.some.injEq] at h
    rw [← h]
    exact fun hc => Except.noConfusion hc
  refine ⟨(c5_gateway ⟨8, 0, false⟩ none hnone).2.1 rfl rfl, ?_, ?_⟩
  · exact ((c5_gateway ⟨8, 0, true⟩ none hnone).1).mpr rfl
  · exact (c5_gateway ⟨8, 0, false⟩ (some (Except.ok [3])) hok).2.2 (Except.ok [3]) rfl rfl

/-! ## Theorems: admission control (C8) -/

/-- Updating one list position rebalances `countP` by the predicate values
of the old and new elements. -/
theorem countP_set_balance {α : Type} (p : α → Bool) :
    ∀ (l : List α) (i : Nat) (hi : i < l.length) (x : α),
      (l.set i x).countP p + (if p (l.get ⟨i, hi⟩) then 1 else 0) =
        l.countP p + (if p x then 1 else 0) := by
  intro l
  induction l with
  | nil =>
    intro i hi x
    simp at hi
  | cons hd tl ih =>
    intro i hi x
    cases i with
    | zero =>
      simp only [List.set, List.countP_cons, List.get]
      omega
    | succ i =>
      simp only [List.set, List.countP_cons, List.get]
      have := ih i (by simpa using hi) x
      omega

/-- Reachability invariant of the dispatch system: permits held by tasks
plus permits available in the semaphore always equals the configured
capacity — the release on every exit path (`finish` from any outcome
kind) is what preserves it. -/
theorem dispatch_invariant (cap : Nat) (s : DispatchSystem) (h : Reachable cap s) :
    permitHolders s + s.available = cap := by
  induction h with
  | refl => simp [initSystem, permitHolders]
  | tail hr hstep ih =>
    cases hstep with
    | spawn =>
      rename_i t
      simp only [permitHolders] at ih ⊢
      rw [List.countP_append]
      have : List.countP holdsPermit [TaskPhase.started] = 0 := by decide
      omega
    | acquire i hi hp hn =>
      rename_i t
      have hbal := countP_set_balance holdsPermit t.tasks i hi TaskPhase.inCall
      rw [hp] at hbal
      simp [holdsPermit] at hbal
      simp only [permitHolders] at ih ⊢
      omega
    | acquireFail i hi hp =>
      rename_i t
      have hbal := countP_set_balance holdsPermit t.tasks i hi TaskPhase.shutdown
      rw [hp] at hbal
      simp [holdsPermit] at hbal
      simp only [permitHolders] at ih ⊢
      omega
    | complete i k hi hp =>
      rename_i t
      have hbal := countP_set_balance holdsPermit t.tasks i hi (TaskPhase.delivering k)
      rw [hp] at hbal
      simp [holdsPermit] at hbal
      simp only [permitHolders] at ih ⊢
      omega
    | finish i k hi hp =>
      rename_i t
      have hbal := countP_set_balance holdsPermit t.tasks i hi TaskPhase.finished
      rw [hp] at hbal
      simp [holdsPermit] at hbal
      simp only [permitHolders] at ih ⊢
      omega

/-- **C8**: in every reachable state of the dispatch system, the number of
downstream calls simultaneously in flight never exceeds the configured
`batch_concurrency` capacity: a call is only in flight while its task
holds a permit (acquired before the call), every exit path releases the
permit, and held-plus-available permits always equal the capacity. -/
theorem c8_inflight_bound (cap : Nat) (s : DispatchSystem) (h : Reachable cap s) :
    inflightCalls s ≤ cap := by
  have hinv := dispatch_invariant cap s h
  have hmono : inflightCalls s ≤ permitHolders s := by
    apply List.countP_mono_left
    intro x _ hx
    cases x <;> simp_all [isInCall, holdsPermit]
  omega

theorem c8_witness : inflightCalls ⟨[TaskPhase.inCall], 0⟩ ≤ 1 := by
  have h1 : DStep (initSystem 1) ⟨[TaskPhase.started], 1⟩ := DStep.spawn (initSystem 1)
  have h2 : DStep ⟨[TaskPhase.started], 1⟩ ⟨[TaskPhase.inCall], 0⟩ :=
    DStep.acquire ⟨[TaskPhase.started], 1⟩ 0 (by simp) rfl (by decide)
  exact c8_inflight_bound 1 ⟨[TaskPhase.inCall], 0⟩
    (Relation.ReflTransGen.tail (Relation.ReflTransGen.single h1) h2)

end Proxy
